import Mathlib

/-!
Shallow embedding of the VGA text-buffer console driver
(`src/vga_buffer.rs`): the `Color` enum, the `ColorCode` attribute
codec, the `ScreenChar` cell, and the `Writer` with its
`write_byte` / `write_string` / `new_line` / `shift_up` / `clear_row`
operations, together with theorems checking the specification's claims.

Machine integers (`u8`, `usize`) are embedded as `Nat`; the VGA buffer
(a `BUFFER_HEIGHT × BUFFER_WIDTH` array of volatile cells) is embedded
as a total function `Nat → Nat → ScreenChar`, with each volatile write
embedded as a pointwise function update and each volatile read as an
application.  Rust `for` loops over ranges are embedded as `List.foldl`
over the corresponding `List.range` / `List.range'` lists, threading the
buffer as the accumulator so that every read inside a loop body sees all
earlier writes, exactly as the mutable Rust buffer does.
-/

namespace VgaBuffer

/-- The 16 VGA colors, each mapped to a 4-bit code (`#[repr(u8)]` enum
`Color` in the source). -/
inductive Color where
  | Black
  | Blue
  | Green
  | Cyan
  | Red
  | Magenta
  | Brown
  | LightGray
  | DarkGray
  | LightBlue
  | LightGreen
  | LightCyan
  | LightRed
  | Pink
  | Yellow
  | White
deriving DecidableEq, Repr

/-- The `as u8` cast on the `Color` enum: each variant's discriminant. -/
def Color.toU8 : Color → Nat
  | .Black => 0
  | .Blue => 1
  | .Green => 2
  | .Cyan => 3
  | .Red => 4
  | .Magenta => 5
  | .Brown => 6
  | .LightGray => 7
  | .DarkGray => 8
  | .LightBlue => 9
  | .LightGreen => 10
  | .LightCyan => 11
  | .LightRed => 12
  | .Pink => 13
  | .Yellow => 14
  | .White => 15

/-- `struct ColorCode(u8)`: the packed attribute byte. -/
structure ColorCode where
  val : Nat
deriving DecidableEq, Repr

/-- `ColorCode::new`: `ColorCode((background as u8) << 4 | (foreground as u8))`.
The `% 256` makes the `u8` arithmetic explicit (it never truncates here,
since both codes are below 16). -/
def ColorCode.new (foreground background : Color) : ColorCode :=
  ⟨((background.toU8 <<< 4) ||| foreground.toU8) % 256⟩

/-- `struct ScreenChar { ascii_character: u8, color_code: ColorCode }`. -/
structure ScreenChar where
  ascii_character : Nat
  color_code : ColorCode
deriving DecidableEq, Repr

def BUFFER_HEIGHT : Nat := 25
def BUFFER_WIDTH : Nat := 80

/-- The VGA buffer `chars: [[Volatile<ScreenChar>; BUFFER_WIDTH]; BUFFER_HEIGHT]`,
embedded as a total function from (row, column) to cells. -/
def Grid : Type := Nat → Nat → ScreenChar

/-- One volatile cell write `buffer.chars[r][c].write(v)`. -/
def writeCell (g : Grid) (r c : Nat) (v : ScreenChar) : Grid :=
  fun r' c' => if r' = r ∧ c' = c then v else g r' c'

/-- `pub struct Writer { column_position, row_position, color_code, buffer }`. -/
structure Writer where
  column_position : Nat
  row_position : Nat
  color_code : ColorCode
  buffer : Grid

/-- `Writer::clear_row`: fills cells of `row` with a blank `ScreenChar`
(`b' '` and the current `color_code`).  NOTE: the source loops
`for col in 0..BUFFER_HEIGHT` (not `BUFFER_WIDTH`); the embedding keeps
that loop bound. -/
def Writer.clear_row (w : Writer) (row : Nat) : Writer :=
  let blank : ScreenChar := { ascii_character := 32, color_code := w.color_code }
  { w with buffer :=
      (List.range BUFFER_HEIGHT).foldl (fun g col => writeCell g row col blank) w.buffer }

/-- `Writer::shift_up`: for `row in 1..BUFFER_HEIGHT`, for
`col in 0..BUFFER_WIDTH`, write `chars[row][col].read()` into
`chars[row-1][col]`; then `clear_row(BUFFER_HEIGHT - 1)`. -/
def Writer.shift_up (w : Writer) : Writer :=
  let w := { w with buffer :=
      (List.range' 1 (BUFFER_HEIGHT - 1)).foldl (fun g row =>
        (List.range BUFFER_WIDTH).foldl (fun g col =>
          writeCell g (row - 1) col (g row col)) g) w.buffer }
  w.clear_row (BUFFER_HEIGHT - 1)

/-- `Writer::new_line`: increment `row_position`; if it reached
`BUFFER_HEIGHT`, shift up and pin it to `BUFFER_HEIGHT - 1`; reset
`column_position` to 0. -/
def Writer.new_line (w : Writer) : Writer :=
  let w := { w with row_position := w.row_position + 1 }
  let w :=
    if BUFFER_HEIGHT ≤ w.row_position then
      { w.shift_up with row_position := BUFFER_HEIGHT - 1 }
    else w
  { w with column_position := 0 }

/-- `Writer::write_byte`: newline triggers `new_line`; any other byte is
written (unmodified) at the cursor after an implicit wrap when
`column_position >= BUFFER_WIDTH`. -/
def Writer.write_byte (w : Writer) (byte : Nat) : Writer :=
  if byte = 10 then w.new_line
  else
    let w := if BUFFER_WIDTH ≤ w.column_position then w.new_line else w
    { w with
      buffer := writeCell w.buffer w.row_position w.column_position
        { ascii_character := byte, color_code := w.color_code },
      column_position := w.column_position + 1 }

/-- `Writer::write_string`: for each byte of the string in order,
`write_byte` it if it is printable ASCII (`0x20..=0x7e`) or newline,
otherwise `write_byte(0xfe)`.  Strings are embedded as their byte lists. -/
def Writer.write_string (w : Writer) (s : List Nat) : Writer :=
  s.foldl (fun w byte =>
    if (0x20 ≤ byte ∧ byte ≤ 0x7e) ∨ byte = 10 then w.write_byte byte
    else w.write_byte 0xfe) w

/-- The byte-sanitization step of `write_string`, factored out as the
spec's `sanitize_byte` codec function: printable ASCII and newline pass
through, anything else becomes the substitute glyph `0xfe`. -/
def sanitizeByte (byte : Nat) : Nat :=
  if (0x20 ≤ byte ∧ byte ≤ 0x7e) ∨ byte = 10 then byte else 0xfe

/-- `fmt::Error` (a unit-like struct). -/
structure FmtError
deriving DecidableEq

/-- `impl fmt::Write for Writer`: `write_str` performs `write_string`
and returns `Ok(())`. -/
def Writer.write_str (w : Writer) (s : List Nat) : Writer × Except FmtError Unit :=
  (w.write_string s, Except.ok ())

/-- The lazily-initialized global `WRITER`'s initial state:
`column_position: 0, row_position: 0, ColorCode::new(Black, White)`.
The buffer contents are whatever the mapped hardware memory at `0xb8000`
holds, so the initial grid is a parameter. -/
def initWriter (g : Grid) : Writer :=
  { column_position := 0
    row_position := 0
    color_code := ColorCode.new Color.Black Color.White
    buffer := g }

/-- A concrete grid used for closed counterexamples and witnesses. -/
def zeroGrid : Grid := fun _ _ => { ascii_character := 0, color_code := ⟨0⟩ }

/-- One public console operation: a `write_byte` call or a
`write_string` call. -/
inductive Op where
  | byte (b : Nat)
  | str (s : List Nat)

/-- Apply one operation to a writer. -/
def applyOp (w : Writer) : Op → Writer
  | .byte b => w.write_byte b
  | .str s => w.write_string s

/-- Run a sequence of operations from the initial writer state. -/
def run (g : Grid) (ops : List Op) : Writer :=
  ops.foldl applyOp (initWriter g)

/-- The wrap step performed by `write_byte` on a non-newline byte before
it accesses the grid: `if self.column_position >= BUFFER_WIDTH
{ self.new_line(); }`.  `write_byte` then writes exactly at
`(row_position, column_position)` of this state. -/
def wrapState (w : Writer) : Writer :=
  if BUFFER_WIDTH ≤ w.column_position then w.new_line else w

end VgaBuffer

namespace VgaBuffer

/-! ## Basic lemmas about the buffer loops -/

theorem writeCell_apply (g : Grid) (r c : Nat) (v : ScreenChar) (r' c' : Nat) :
    writeCell g r c v r' c' = if r' = r ∧ c' = c then v else g r' c' := rfl

/-- Closed form of the `clear_row` column loop: a cell is blank iff its
row is the cleared row and its column is in the loop's range. -/
theorem foldl_clear_apply (row : Nat) (blank : ScreenChar) :
    ∀ (L : List Nat) (g : Grid) (r' c' : Nat),
      (L.foldl (fun g col => writeCell g row col blank) g) r' c' =
        if r' = row ∧ c' ∈ L then blank else g r' c' := by
  intro L
  induction L with
  | nil => intro g r' c'; simp
  | cons a L ih =>
    intro g r' c'
    rw [List.foldl_cons, ih]
    by_cases hr : r' = row
    · by_cases hL : c' ∈ L
      · simp [hr, hL]
      · by_cases ha : c' = a
        · simp [hr, hL, ha, writeCell_apply]
        · simp [hr, hL, ha, writeCell_apply]
    · simp [hr, writeCell_apply]

/-- Closed form of the inner copy loop of `shift_up`: for `1 ≤ row`,
every cell of row `row - 1` with column in the loop's range receives the
cell of row `row` at the same column, and all other cells are untouched. -/
theorem foldl_copy_apply (row : Nat) (hrow : 1 ≤ row) :
    ∀ (L : List Nat) (g : Grid) (r' c' : Nat),
      (L.foldl (fun g col => writeCell g (row - 1) col (g row col)) g) r' c' =
        if r' = row - 1 ∧ c' ∈ L then g row c' else g r' c' := by
  have hne : row ≠ row - 1 := by omega
  intro L
  induction L with
  | nil => intro g r' c'; simp
  | cons a L ih =>
    intro g r' c'
    rw [List.foldl_cons, ih]
    by_cases hr : r' = row - 1
    · by_cases hL : c' ∈ L
      · simp [hr, hL, writeCell_apply, hne]
      · by_cases ha : c' = a
        · simp [hr, hL, ha, writeCell_apply, hne]
        · simp [hr, hL, ha, writeCell_apply]
    · simp [hr, writeCell_apply, hne]

/-- Closed form of the row loop of `shift_up` over rows `1..k+1`:
rows `0..k-1` receive the rows below them (full width), everything else
is untouched. -/
theorem foldl_shift_apply :
    ∀ (k : Nat) (g : Grid) (r c : Nat),
      ((List.range' 1 k).foldl (fun g row =>
          (List.range BUFFER_WIDTH).foldl (fun g col =>
            writeCell g (row - 1) col (g row col)) g) g) r c =
        if r < k ∧ c < BUFFER_WIDTH then g (r + 1) c else g r c := by
  intro k
  induction k with
  | zero => intro g r c; simp
  | succ k ih =>
    intro g r c
    rw [List.range'_1_concat, List.foldl_append, List.foldl_cons, List.foldl_nil,
      foldl_copy_apply (1 + k) (by omega)]
    simp only [List.mem_range, Nat.add_sub_cancel_left, ih]
    by_cases hc : c < BUFFER_WIDTH
    · by_cases hr : r = k
      · have h1 : ¬ (1 + k < k) := by omega
        have h2 : r < k + 1 := by omega
        simp [hr, hc, h1, h2, Nat.add_comm 1 k]
      · by_cases hrk : r < k
        · have : r < k + 1 := by omega
          simp [hr, hc, hrk, this]
        · have : ¬ r < k + 1 := by omega
          simp [hr, hc, hrk, this]
    · simp [hc]

/-- What `clear_row` does to the buffer: it blanks only columns
`0..BUFFER_HEIGHT` (the source's loop bound) of the given row. -/
theorem clear_row_buffer (w : Writer) (row r c : Nat) :
    (w.clear_row row).buffer r c =
      if r = row ∧ c < BUFFER_HEIGHT then
        { ascii_character := 32, color_code := w.color_code }
      else w.buffer r c := by
  have h : (w.clear_row row).buffer =
      (List.range BUFFER_HEIGHT).foldl
        (fun g col => writeCell g row col
          { ascii_character := 32, color_code := w.color_code }) w.buffer := rfl
  rw [h, foldl_clear_apply]
  simp [List.mem_range]

theorem clear_row_column (w : Writer) (row : Nat) :
    (w.clear_row row).column_position = w.column_position := rfl

theorem clear_row_row (w : Writer) (row : Nat) :
    (w.clear_row row).row_position = w.row_position := rfl

theorem clear_row_color (w : Writer) (row : Nat) :
    (w.clear_row row).color_code = w.color_code := rfl

/-- What `shift_up` does to the buffer: rows `0..BUFFER_HEIGHT-2` receive
the rows below them; the last row is then (partially, per the source's
loop bound) blanked. -/
theorem shift_up_buffer (w : Writer) (r c : Nat) :
    w.shift_up.buffer r c =
      if r = BUFFER_HEIGHT - 1 ∧ c < BUFFER_HEIGHT then
        { ascii_character := 32, color_code := w.color_code }
      else if r < BUFFER_HEIGHT - 1 ∧ c < BUFFER_WIDTH then w.buffer (r + 1) c
      else w.buffer r c := by
  have hb : w.shift_up.buffer =
      (List.range BUFFER_HEIGHT).foldl
        (fun g col => writeCell g (BUFFER_HEIGHT - 1) col
          { ascii_character := 32, color_code := w.color_code })
        ((List.range' 1 (BUFFER_HEIGHT - 1)).foldl (fun g row =>
          (List.range BUFFER_WIDTH).foldl (fun g col =>
            writeCell g (row - 1) col (g row col)) g) w.buffer) := rfl
  rw [hb, foldl_clear_apply]
  simp only [List.mem_range]
  by_cases h : r = BUFFER_HEIGHT - 1 ∧ c < BUFFER_HEIGHT
  · rw [if_pos h, if_pos h]
  · rw [if_neg h, if_neg h, foldl_shift_apply]

theorem shift_up_column (w : Writer) :
    w.shift_up.column_position = w.column_position := rfl

theorem shift_up_row (w : Writer) :
    w.shift_up.row_position = w.row_position := rfl

theorem shift_up_color (w : Writer) :
    w.shift_up.color_code = w.color_code := rfl

end VgaBuffer

namespace VgaBuffer

/-! ## Step lemmas for `new_line` and `write_byte` -/

theorem new_line_column (w : Writer) : w.new_line.column_position = 0 := rfl

theorem new_line_row (w : Writer) :
    w.new_line.row_position =
      if BUFFER_HEIGHT ≤ w.row_position + 1 then BUFFER_HEIGHT - 1
      else w.row_position + 1 := by
  simp only [Writer.new_line]
  split <;> simp_all

theorem new_line_color (w : Writer) : w.new_line.color_code = w.color_code := by
  simp only [Writer.new_line]
  split <;> rfl

theorem new_line_row_lt (w : Writer) : w.new_line.row_position < BUFFER_HEIGHT := by
  rw [new_line_row]
  split
  · simp [BUFFER_HEIGHT]
  · omega

theorem new_line_buffer_of_lt (w : Writer) (h : w.row_position + 1 < BUFFER_HEIGHT) :
    w.new_line.buffer = w.buffer := by
  simp only [Writer.new_line]
  rw [if_neg (by omega)]

/-- When `new_line` scrolls, the buffer it produces is the `shift_up` of
the current buffer (with the current attribute as fill). -/
theorem new_line_buffer_of_ge (w : Writer) (h : BUFFER_HEIGHT ≤ w.row_position + 1)
    (r c : Nat) :
    w.new_line.buffer r c =
      if r = BUFFER_HEIGHT - 1 ∧ c < BUFFER_HEIGHT then
        { ascii_character := 32, color_code := w.color_code }
      else if r < BUFFER_HEIGHT - 1 ∧ c < BUFFER_WIDTH then w.buffer (r + 1) c
      else w.buffer r c := by
  simp only [Writer.new_line]
  rw [if_pos (show BUFFER_HEIGHT ≤ ({ w with row_position := w.row_position + 1 } :
    Writer).row_position from h)]
  exact shift_up_buffer { w with row_position := w.row_position + 1 } r c

theorem write_byte_newline (w : Writer) : w.write_byte 10 = w.new_line := by
  simp [Writer.write_byte]

/-- `write_byte` on a non-newline byte with the cursor strictly inside
the line: one cell write at the cursor, column advances, nothing else
changes. -/
theorem write_byte_step (w : Writer) (byte : Nat) (hb : byte ≠ 10)
    (hc : w.column_position < BUFFER_WIDTH) :
    w.write_byte byte =
      { w with
        buffer := writeCell w.buffer w.row_position w.column_position
          { ascii_character := byte, color_code := w.color_code },
        column_position := w.column_position + 1 } := by
  simp only [Writer.write_byte]
  rw [if_neg hb, if_neg (by omega)]

/-- `write_byte` on a non-newline byte with the cursor at or past the
line end: wrap via `new_line` first, then write at the wrapped cursor. -/
theorem write_byte_of_wrap (w : Writer) (byte : Nat) (hb : byte ≠ 10)
    (hc : BUFFER_WIDTH ≤ w.column_position) :
    w.write_byte byte =
      { w.new_line with
        buffer := writeCell w.new_line.buffer w.new_line.row_position
          w.new_line.column_position
          { ascii_character := byte, color_code := w.new_line.color_code },
        column_position := w.new_line.column_position + 1 } := by
  simp only [Writer.write_byte]
  rw [if_neg hb, if_pos hc]

end VgaBuffer

namespace VgaBuffer

/-! ## The attribute codec -/

theorem color_toU8_lt (c : Color) : c.toU8 < 16 := by
  cases c <;> decide

theorem color_toU8_inj (c1 c2 : Color) (h : c1.toU8 = c2.toU8) : c1 = c2 := by
  cases c1 <;> cases c2 <;> first
    | rfl
    | exact absurd h (by decide)

/-- Nibble arithmetic for 4-bit codes: packing is below 256 and the two
nibbles of the packed byte recover the inputs. -/
theorem pack_nibbles :
    ∀ b < 16, ∀ f < 16,
      (b <<< 4 ||| f) < 256 ∧ (b <<< 4 ||| f) % 16 = f ∧ (b <<< 4 ||| f) / 16 = b := by
  decide

/-- C5: `ColorCode::new` packs the attribute byte as
`(background << 4) | foreground`; it is injective, and the low and high
nibbles of the result recover the foreground and background codes. -/
theorem colorCode_new_spec :
    (∀ f b : Color,
      (ColorCode.new f b).val = (b.toU8 <<< 4) ||| f.toU8 ∧
      (ColorCode.new f b).val % 16 = f.toU8 ∧
      (ColorCode.new f b).val / 16 = b.toU8) ∧
    (∀ f1 b1 f2 b2 : Color,
      ColorCode.new f1 b1 = ColorCode.new f2 b2 → f1 = f2 ∧ b1 = b2) := by
  have hval : ∀ f b : Color,
      (ColorCode.new f b).val = (b.toU8 <<< 4) ||| f.toU8 ∧
      (ColorCode.new f b).val % 16 = f.toU8 ∧
      (ColorCode.new f b).val / 16 = b.toU8 := by
    intro f b
    obtain ⟨hlt, hmod, hdiv⟩ := pack_nibbles b.toU8 (color_toU8_lt b) f.toU8 (color_toU8_lt f)
    have : (ColorCode.new f b).val = (b.toU8 <<< 4 ||| f.toU8) % 256 := rfl
    rw [this, Nat.mod_eq_of_lt hlt]
    exact ⟨rfl, hmod, hdiv⟩
  refine ⟨hval, ?_⟩
  intro f1 b1 f2 b2 h
  have hv : (ColorCode.new f1 b1).val = (ColorCode.new f2 b2).val := by rw [h]
  obtain ⟨_, hm1, hd1⟩ := hval f1 b1
  obtain ⟨_, hm2, hd2⟩ := hval f2 b2
  constructor
  · exact color_toU8_inj f1 f2 (by rw [← hm1, ← hm2, hv])
  · exact color_toU8_inj b1 b2 (by rw [← hd1, ← hd2, hv])

/-- Witness for C5 at a concrete input: applying the injectivity half to
`(Yellow, Black)` twice, with the equation hypothesis discharged by `rfl`. -/
theorem colorCode_new_spec_witness :
    Color.Yellow = Color.Yellow ∧ Color.Black = Color.Black :=
  colorCode_new_spec.2 Color.Yellow Color.Black Color.Yellow Color.Black rfl

/-! ## Sanitization and `write_string` -/

/-- C6: the sanitization step of `write_string` is the identity on
printable ASCII (0x20–0x7E) and newline, maps every other byte to the
substitute glyph `0xfe`, and `write_string` is exactly the in-order fold
of `write_byte` over the sanitized bytes. -/
theorem sanitize_write_string_spec :
    (∀ byte : Nat, (0x20 ≤ byte ∧ byte ≤ 0x7e) ∨ byte = 10 → sanitizeByte byte = byte) ∧
    (∀ byte : Nat, ¬ ((0x20 ≤ byte ∧ byte ≤ 0x7e) ∨ byte = 10) →
      sanitizeByte byte = 0xfe) ∧
    (∀ (w : Writer) (s : List Nat),
      w.write_string s = s.foldl (fun w byte => w.write_byte (sanitizeByte byte)) w) := by
  refine ⟨?_, ?_, ?_⟩
  · intro byte h
    simp [sanitizeByte, h]
  · intro byte h
    simp [sanitizeByte, h]
  · intro w s
    have hstep : (fun (w : Writer) (byte : Nat) =>
        if (0x20 ≤ byte ∧ byte ≤ 0x7e) ∨ byte = 10 then w.write_byte byte
        else w.write_byte 0xfe) =
        fun (w : Writer) (byte : Nat) => w.write_byte (sanitizeByte byte) := by
      funext w byte
      by_cases h : (0x20 ≤ byte ∧ byte ≤ 0x7e) ∨ byte = 10
      · simp [sanitizeByte, h]
      · simp [sanitizeByte, h]
    show s.foldl _ w = _
    rw [hstep]

/-- Witness for C6 at concrete inputs: `sanitizeByte` keeps `'A' = 0x41`
and turns byte `7` (BEL, non-printable) into `0xfe`. -/
theorem sanitize_write_string_spec_witness :
    sanitizeByte 0x41 = 0x41 ∧ sanitizeByte 7 = 0xfe :=
  ⟨sanitize_write_string_spec.1 0x41 (Or.inl (by decide)),
   sanitize_write_string_spec.2.1 7 (by decide)⟩

/-! ## The formatted-output adapter -/

/-- C8: `write_str` (the `fmt::Write` impl) performs the byte writes via
`write_string` and always returns `Ok(())`; it has no failure path. -/
theorem write_str_spec (w : Writer) (s : List Nat) :
    (w.write_str s).2 = Except.ok () ∧ (w.write_str s).1 = w.write_string s :=
  ⟨rfl, rfl⟩

end VgaBuffer

namespace VgaBuffer

/-! ## Shared helper: `write_string` as a fold of sanitized `write_byte`s -/

theorem write_string_sanitized (w : Writer) (s : List Nat) :
    w.write_string s = s.foldl (fun w byte => w.write_byte (sanitizeByte byte)) w := by
  have hstep : (fun (w : Writer) (byte : Nat) =>
      if (0x20 ≤ byte ∧ byte ≤ 0x7e) ∨ byte = 10 then w.write_byte byte
      else w.write_byte 0xfe) =
      fun (w : Writer) (byte : Nat) => w.write_byte (sanitizeByte byte) := by
    funext w byte
    by_cases h : (0x20 ≤ byte ∧ byte ≤ 0x7e) ∨ byte = 10
    · simp [sanitizeByte, h]
    · simp [sanitizeByte, h]
  show s.foldl _ w = _
  rw [hstep]

theorem write_string_singleton (w : Writer) (byte : Nat) :
    w.write_string [byte] = w.write_byte (sanitizeByte byte) := by
  rw [write_string_sanitized]
  rfl

/-! ## C1: `clear_row` and the blank row -/

/-- A grid whose every cell holds `'A'` (byte 65): concrete prior
content for exercising `clear_row`. -/
def fullGrid : Grid := fun _ _ => { ascii_character := 65, color_code := ⟨0x0f⟩ }

/-- A concrete writer sitting on the last row over `fullGrid`. -/
def cexWriter : Writer :=
  { column_position := 0
    row_position := BUFFER_HEIGHT - 1
    color_code := ⟨0x0f⟩
    buffer := fullGrid }

/-- C1 (code bug): `clear_row` loops `for col in 0..BUFFER_HEIGHT` (25)
instead of `0..BUFFER_WIDTH` (80), so clearing the last row blanks only
columns 0..24 and leaves columns 25..79 with their prior content.  Here
column 25 (and 79) of the cleared row still holds `'A'` while column 0
was blanked to `' '`. -/
theorem clear_row_incomplete_bug :
    ((cexWriter.clear_row (BUFFER_HEIGHT - 1)).buffer (BUFFER_HEIGHT - 1) 25).ascii_character
        = 65 ∧
    ((cexWriter.clear_row (BUFFER_HEIGHT - 1)).buffer (BUFFER_HEIGHT - 1) 79).ascii_character
        = 65 ∧
    ((cexWriter.clear_row (BUFFER_HEIGHT - 1)).buffer (BUFFER_HEIGHT - 1) 0).ascii_character
        = 32 ∧
    25 < BUFFER_WIDTH := by decide

/-! ## C2: where sanitization happens -/

/-- C2 counterexample: calling `write_byte` directly with the
non-printable byte 0 stores byte 0 itself at the cursor, not the
substitute glyph `0xfe`: `write_byte` does not sanitize. -/
theorem write_byte_unsanitized_cex :
    (((initWriter zeroGrid).write_byte 0).buffer 0 0).ascii_character = 0 ∧
    ¬ (((initWriter zeroGrid).write_byte 0).buffer 0 0).ascii_character = 0xfe := by
  decide

/-- C2 (amended): sanitization is performed by `write_string`, not by
`write_byte`: for a non-newline byte written inside the line,
`write_byte` stores the byte unchanged, while `write_string` of that
byte stores it when printable and `0xfe` otherwise. -/
theorem write_byte_raw_write_string_sanitizes (w : Writer) (byte : Nat)
    (hb : byte ≠ 10) (hc : w.column_position < BUFFER_WIDTH) :
    ((w.write_byte byte).buffer w.row_position w.column_position).ascii_character = byte ∧
    ((w.write_string [byte]).buffer w.row_position w.column_position).ascii_character =
      if 0x20 ≤ byte ∧ byte ≤ 0x7e then byte else 0xfe := by
  constructor
  · rw [write_byte_step w byte hb hc]
    simp [writeCell_apply]
  · rw [write_string_singleton]
    by_cases hp : 0x20 ≤ byte ∧ byte ≤ 0x7e
    · have hs : sanitizeByte byte = byte := by simp [sanitizeByte, hp]
      rw [hs, write_byte_step w byte hb hc, if_pos hp]
      simp [writeCell_apply]
    · have hs : sanitizeByte byte = 0xfe := by simp [sanitizeByte, hp, hb]
      rw [hs, write_byte_step w 0xfe (by decide) hc, if_neg hp]
      simp [writeCell_apply]

/-- Witness for the amended C2 at byte 7 (BEL) from the initial state. -/
theorem write_byte_raw_write_string_sanitizes_witness :
    (((initWriter zeroGrid).write_byte 7).buffer
        (initWriter zeroGrid).row_position (initWriter zeroGrid).column_position).ascii_character
      = 7 ∧
    (((initWriter zeroGrid).write_string [7]).buffer
        (initWriter zeroGrid).row_position (initWriter zeroGrid).column_position).ascii_character
      = if 0x20 ≤ 7 ∧ 7 ≤ 0x7e then 7 else 0xfe :=
  write_byte_raw_write_string_sanitizes (initWriter zeroGrid) 7 (by decide) (by decide)

/-! ## C3: the scroll performed by `new_line` -/

/-- C3: when the incremented row reaches `BUFFER_HEIGHT`, `new_line`
scrolls: afterwards the row is pinned to `BUFFER_HEIGHT - 1`, the column
is reset to 0, and every cell of rows `0..BUFFER_HEIGHT-2` holds exactly
the cell previously one row below (row 0's prior content is discarded). -/
theorem new_line_scroll_spec (w : Writer) (h : BUFFER_HEIGHT ≤ w.row_position + 1) :
    w.new_line.row_position = BUFFER_HEIGHT - 1 ∧
    w.new_line.column_position = 0 ∧
    ∀ r c : Nat, r < BUFFER_HEIGHT - 1 → c < BUFFER_WIDTH →
      w.new_line.buffer r c = w.buffer (r + 1) c := by
  refine ⟨?_, new_line_column w, ?_⟩
  · rw [new_line_row, if_pos h]
  · intro r c hr hc
    rw [new_line_buffer_of_ge w h r c]
    have h1 : ¬ (r = BUFFER_HEIGHT - 1 ∧ c < BUFFER_HEIGHT) := by
      intro hcon
      omega
    rw [if_neg h1, if_pos ⟨hr, hc⟩]

/-- Witness for C3: a writer on the last row over `fullGrid`. -/
theorem new_line_scroll_spec_witness :
    cexWriter.new_line.row_position = BUFFER_HEIGHT - 1 ∧
    cexWriter.new_line.column_position = 0 ∧
    ∀ r c : Nat, r < BUFFER_HEIGHT - 1 → c < BUFFER_WIDTH →
      cexWriter.new_line.buffer r c = cexWriter.buffer (r + 1) c :=
  new_line_scroll_spec cexWriter (by decide)

/-! ## C10: the frame effect of `write_byte` -/

/-- C10: for a non-newline byte written with the cursor inside the line,
`write_byte` changes only the cell at the cursor, keeps the row and the
attribute, and advances the column by one; and `write_byte` of a newline
from a row below `BUFFER_HEIGHT - 1` changes no grid cell at all. -/
theorem write_byte_frame (w : Writer) (byte : Nat) (hb : byte ≠ 10)
    (hc : w.column_position < BUFFER_WIDTH) :
    ((w.write_byte byte).row_position = w.row_position ∧
     (w.write_byte byte).color_code = w.color_code ∧
     (w.write_byte byte).column_position = w.column_position + 1 ∧
     ∀ r c : Nat, ¬ (r = w.row_position ∧ c = w.column_position) →
       (w.write_byte byte).buffer r c = w.buffer r c) ∧
    (w.row_position < BUFFER_HEIGHT - 1 → (w.write_byte 10).buffer = w.buffer) := by
  constructor
  · rw [write_byte_step w byte hb hc]
    refine ⟨rfl, rfl, rfl, ?_⟩
    intro r c hne
    simp [writeCell_apply, hne]
  · intro hrow
    have h10 : w.write_byte 10 = w.new_line := by simp [Writer.write_byte]
    rw [h10]
    apply new_line_buffer_of_lt
    simp only [BUFFER_HEIGHT] at hrow ⊢
    omega

/-- Witness for C10 at byte 65 from the initial state over `zeroGrid`. -/
theorem write_byte_frame_witness :
    (((initWriter zeroGrid).write_byte 65).row_position = (initWriter zeroGrid).row_position ∧
     ((initWriter zeroGrid).write_byte 65).color_code = (initWriter zeroGrid).color_code ∧
     ((initWriter zeroGrid).write_byte 65).column_position =
       (initWriter zeroGrid).column_position + 1 ∧
     ∀ r c : Nat,
       ¬ (r = (initWriter zeroGrid).row_position ∧ c = (initWriter zeroGrid).column_position) →
       ((initWriter zeroGrid).write_byte 65).buffer r c = (initWriter zeroGrid).buffer r c) ∧
    ((initWriter zeroGrid).row_position < BUFFER_HEIGHT - 1 →
      ((initWriter zeroGrid).write_byte 10).buffer = (initWriter zeroGrid).buffer) :=
  write_byte_frame (initWriter zeroGrid) 65 (by decide) (by decide)

end VgaBuffer

namespace VgaBuffer

/-! ## Bytes within a line: the inductive workhorse -/

theorem sanitizeByte_ne_newline (byte : Nat) (hb : byte ≠ 10) : sanitizeByte byte ≠ 10 := by
  unfold sanitizeByte
  split
  · exact hb
  · decide

theorem sanitizeByte_printable (byte : Nat) (hp : 0x20 ≤ byte ∧ byte ≤ 0x7e) :
    sanitizeByte byte = byte := by
  simp [sanitizeByte, hp]

theorem write_string_cons (w : Writer) (b : Nat) (t : List Nat) :
    w.write_string (b :: t) = (w.write_byte (sanitizeByte b)).write_string t := by
  rw [write_string_sanitized, write_string_sanitized, List.foldl_cons]

theorem write_string_append (w : Writer) (s t : List Nat) :
    w.write_string (s ++ t) = (w.write_string s).write_string t := by
  simp only [Writer.write_string, List.foldl_append]

/-- Writing a list of non-newline bytes that fits in the remainder of
the current line: the row and attribute are unchanged, the column
advances by the list length, the written cells hold the sanitized bytes
in order, and every other cell is untouched. -/
theorem write_string_fits (s : List Nat) :
    ∀ w : Writer, (∀ b ∈ s, b ≠ 10) →
      w.column_position + s.length ≤ BUFFER_WIDTH →
      (w.write_string s).row_position = w.row_position ∧
      (w.write_string s).color_code = w.color_code ∧
      (w.write_string s).column_position = w.column_position + s.length ∧
      (∀ i, ∀ hi : i < s.length,
        (w.write_string s).buffer w.row_position (w.column_position + i) =
          { ascii_character := sanitizeByte (s.get ⟨i, hi⟩),
            color_code := w.color_code }) ∧
      (∀ r c : Nat,
        (r = w.row_position → c < w.column_position ∨ w.column_position + s.length ≤ c) →
        (w.write_string s).buffer r c = w.buffer r c) := by
  induction s with
  | nil =>
    intro w _ _
    refine ⟨rfl, rfl, rfl, ?_, ?_⟩
    · intro i hi
      exact absurd hi (by simp)
    · intro r c _
      rfl
  | cons b t ih =>
    intro w hnl hlen
    have hb : b ≠ 10 := hnl b (List.mem_cons_self b t)
    have hlen' : w.column_position + (t.length + 1) ≤ BUFFER_WIDTH := by
      simpa using hlen
    have hcol : w.column_position < BUFFER_WIDTH := by omega
    rw [write_string_cons,
      write_byte_step w (sanitizeByte b) (sanitizeByte_ne_newline b hb) hcol]
    obtain ⟨ihrow, ihcolor, ihcol, ihcells, ihframe⟩ :=
      ih { w with
            buffer := writeCell w.buffer w.row_position w.column_position
              { ascii_character := sanitizeByte b, color_code := w.color_code },
            column_position := w.column_position + 1 }
        (fun x hx => hnl x (List.mem_cons_of_mem b hx))
        (by dsimp only; omega)
    dsimp only at ihrow ihcolor ihcol ihcells ihframe
    refine ⟨ihrow, ihcolor, ?_, ?_, ?_⟩
    · rw [ihcol]
      simp only [List.length_cons]
      omega
    · intro i hi
      cases i with
      | zero =>
        have h0 := ihframe w.row_position (w.column_position + 0)
          (fun _ => Or.inl (by omega))
        rw [h0, writeCell_apply]
        simp
      | succ i =>
        have hi' : i < t.length := by simpa using hi
        have hc := ihcells i hi'
        have harith : w.column_position + (i + 1) = w.column_position + 1 + i := by omega
        rw [harith, hc]
        rfl
    · intro r c hcond
      have hcond' : r = w.row_position →
          c < w.column_position + 1 ∨ w.column_position + 1 + t.length ≤ c := by
        intro hr
        rcases hcond hr with h | h
        · exact Or.inl (by omega)
        · right
          simp only [List.length_cons] at h
          omega
      rw [ihframe r c hcond', writeCell_apply]
      have hne : ¬ (r = w.row_position ∧ c = w.column_position) := by
        rintro ⟨hr, hc2⟩
        rcases hcond hr with h | h
        · omega
        · simp only [List.length_cons] at h
          omega
      rw [if_neg hne]

end VgaBuffer

namespace VgaBuffer

/-! ## C9: short line writes -/

/-- C9: writing a newline-free string shorter than `BUFFER_WIDTH` from
column 0 leaves the row unchanged and leaves the column equal to the
length of the sanitized string, which equals the length of the input
(sanitization is one byte for one byte). -/
theorem write_string_short_spec (w : Writer) (s : List Nat)
    (hnl : ∀ b ∈ s, b ≠ 10) (hlen : s.length < BUFFER_WIDTH)
    (hcol : w.column_position = 0) :
    (w.write_string s).row_position = w.row_position ∧
    (w.write_string s).column_position = (s.map sanitizeByte).length ∧
    (s.map sanitizeByte).length = s.length := by
  obtain ⟨hrow, _, hc, _, _⟩ := write_string_fits s w hnl (by omega)
  refine ⟨hrow, ?_, by simp⟩
  rw [hc, hcol, List.length_map]
  omega

/-- Witness for C9: writing `"hi"` (bytes 104, 105) from the initial
state. -/
theorem write_string_short_spec_witness :
    ((initWriter zeroGrid).write_string [104, 105]).row_position =
      (initWriter zeroGrid).row_position ∧
    ((initWriter zeroGrid).write_string [104, 105]).column_position =
      ([104, 105].map sanitizeByte).length ∧
    ([104, 105].map sanitizeByte).length = ([104, 105] : List Nat).length :=
  write_string_short_spec (initWriter zeroGrid) [104, 105] (by decide) (by decide) rfl

/-! ## C4: the implicit wrap after a full line -/

/-- C4: from a state with `row < BUFFER_HEIGHT - 1` and `column = 0`,
writing exactly `BUFFER_WIDTH` printable bytes followed by one more
printable byte wraps exactly once: the first `BUFFER_WIDTH` bytes fill
the current row, the extra byte lands at `(row + 1, 0)`, and afterwards
`row` advanced by one and `column = 1`. -/
theorem write_wrap_spec (w : Writer) (s : List Nat) (b : Nat)
    (hrow : w.row_position < BUFFER_HEIGHT - 1) (hcol : w.column_position = 0)
    (hlen : s.length = BUFFER_WIDTH)
    (hp : ∀ x ∈ s, 0x20 ≤ x ∧ x ≤ 0x7e) (hpb : 0x20 ≤ b ∧ b ≤ 0x7e) :
    (w.write_string (s ++ [b])).row_position = w.row_position + 1 ∧
    (w.write_string (s ++ [b])).column_position = 1 ∧
    (w.write_string (s ++ [b])).buffer (w.row_position + 1) 0 =
      { ascii_character := b, color_code := w.color_code } ∧
    (∀ i, ∀ hi : i < s.length,
      (w.write_string (s ++ [b])).buffer w.row_position i =
        { ascii_character := s.get ⟨i, hi⟩, color_code := w.color_code }) := by
  have hnl : ∀ x ∈ s, x ≠ 10 := fun x hx => by
    have := hp x hx
    omega
  obtain ⟨hrow1, hcolor1, hcol1, hcells1, _⟩ := write_string_fits s w hnl (by omega)
  rw [write_string_append, write_string_singleton, sanitizeByte_printable b hpb]
  have hW : BUFFER_WIDTH ≤ (w.write_string s).column_position := by
    rw [hcol1, hcol, hlen]
    omega
  have hb10 : b ≠ 10 := by omega
  rw [write_byte_of_wrap (w.write_string s) b hb10 hW]
  have hnotfull : ¬ (BUFFER_HEIGHT ≤ (w.write_string s).row_position + 1) := by
    rw [hrow1]
    simp only [BUFFER_HEIGHT] at hrow ⊢
    omega
  have hnlrow : (w.write_string s).new_line.row_position = w.row_position + 1 := by
    rw [new_line_row, if_neg hnotfull, hrow1]
  have hnlcol : (w.write_string s).new_line.column_position = 0 := new_line_column _
  have hnlcolor : (w.write_string s).new_line.color_code = w.color_code := by
    rw [new_line_color, hcolor1]
  have hnlbuf : (w.write_string s).new_line.buffer = (w.write_string s).buffer :=
    new_line_buffer_of_lt _ (by omega)
  refine ⟨?_, ?_, ?_, ?_⟩
  · dsimp only
    exact hnlrow
  · dsimp only
    rw [hnlcol]
  · dsimp only
    rw [writeCell_apply, if_pos ⟨hnlrow.symm, hnlcol.symm⟩, hnlcolor]
  · intro i hi
    dsimp only
    rw [writeCell_apply]
    have hne : ¬ (w.row_position = (w.write_string s).new_line.row_position ∧
        i = (w.write_string s).new_line.column_position) := by
      rintro ⟨h1, _⟩
      rw [hnlrow] at h1
      omega
    rw [if_neg hne, hnlbuf]
    have hcell := hcells1 i hi
    rw [hcol, Nat.zero_add] at hcell
    rw [hcell, sanitizeByte_printable (s.get ⟨i, hi⟩) (hp _ (s.get_mem i hi))]

/-- Witness for C4: a full row of `'A'` (byte 65) followed by `'B'`
(byte 66), from the initial state. -/
theorem write_wrap_spec_witness :
    ((initWriter zeroGrid).write_string
        (List.replicate BUFFER_WIDTH 65 ++ [66])).row_position =
      (initWriter zeroGrid).row_position + 1 ∧
    ((initWriter zeroGrid).write_string
        (List.replicate BUFFER_WIDTH 65 ++ [66])).column_position = 1 ∧
    ((initWriter zeroGrid).write_string
        (List.replicate BUFFER_WIDTH 65 ++ [66])).buffer
        ((initWriter zeroGrid).row_position + 1) 0 =
      { ascii_character := 66, color_code := (initWriter zeroGrid).color_code } ∧
    (∀ i, ∀ hi : i < (List.replicate BUFFER_WIDTH (65 : Nat)).length,
      ((initWriter zeroGrid).write_string
          (List.replicate BUFFER_WIDTH 65 ++ [66])).buffer
          (initWriter zeroGrid).row_position i =
        { ascii_character := (List.replicate BUFFER_WIDTH (65 : Nat)).get ⟨i, hi⟩,
          color_code := (initWriter zeroGrid).color_code }) :=
  write_wrap_spec (initWriter zeroGrid) (List.replicate BUFFER_WIDTH 65) 66
    (by decide) rfl (by simp) (by decide) (by decide)

/-! ## C7: the cursor invariant -/

set_option maxRecDepth 4000 in
/-- C7 counterexample: writing exactly `BUFFER_WIDTH` printable bytes
from the initial state leaves `column_position = BUFFER_WIDTH`, so the
claimed invariant `column < WIDTH` does not hold after every operation
sequence. -/
theorem column_lt_width_cex :
    ¬ ((run zeroGrid [Op.str (List.replicate BUFFER_WIDTH 65)]).column_position
        < BUFFER_WIDTH) := by
  decide

theorem inv_new_line (w : Writer) :
    w.new_line.column_position ≤ BUFFER_WIDTH ∧
    w.new_line.row_position < BUFFER_HEIGHT := by
  refine ⟨?_, new_line_row_lt w⟩
  rw [new_line_column]
  omega

theorem inv_write_byte (w : Writer) (b : Nat)
    (h : w.column_position ≤ BUFFER_WIDTH ∧ w.row_position < BUFFER_HEIGHT) :
    (w.write_byte b).column_position ≤ BUFFER_WIDTH ∧
    (w.write_byte b).row_position < BUFFER_HEIGHT := by
  by_cases hb : b = 10
  · subst hb
    rw [write_byte_newline]
    exact inv_new_line w
  · by_cases hc : BUFFER_WIDTH ≤ w.column_position
    · rw [write_byte_of_wrap w b hb hc]
      dsimp only
      refine ⟨?_, new_line_row_lt w⟩
      rw [new_line_column]
      simp [BUFFER_WIDTH]
    · rw [write_byte_step w b hb (by omega)]
      dsimp only
      exact ⟨by omega, h.2⟩

theorem inv_write_string (w : Writer) (s : List Nat)
    (h : w.column_position ≤ BUFFER_WIDTH ∧ w.row_position < BUFFER_HEIGHT) :
    (w.write_string s).column_position ≤ BUFFER_WIDTH ∧
    (w.write_string s).row_position < BUFFER_HEIGHT := by
  induction s generalizing w with
  | nil => exact h
  | cons b t ih =>
    rw [write_string_cons]
    exact ih _ (inv_write_byte w (sanitizeByte b) h)

theorem inv_foldl (ops : List Op) :
    ∀ w : Writer, w.column_position ≤ BUFFER_WIDTH → w.row_position < BUFFER_HEIGHT →
      (ops.foldl applyOp w).column_position ≤ BUFFER_WIDTH ∧
      (ops.foldl applyOp w).row_position < BUFFER_HEIGHT := by
  induction ops with
  | nil => exact fun w h1 h2 => ⟨h1, h2⟩
  | cons op rest ih =>
    intro w h1 h2
    rw [List.foldl_cons]
    cases op with
    | byte b =>
      obtain ⟨h1', h2'⟩ := inv_write_byte w b ⟨h1, h2⟩
      exact ih _ h1' h2'
    | str s =>
      obtain ⟨h1', h2'⟩ := inv_write_string w s ⟨h1, h2⟩
      exact ih _ h1' h2'

/-- C7 (amended): from the initial state, after every sequence of
`write_byte` / `write_string` operations the cursor satisfies
`column ≤ BUFFER_WIDTH` (the column can transiently equal `BUFFER_WIDTH`
after a row fills) and `row < BUFFER_HEIGHT`; and the wrap step that
`write_byte` performs before any grid access leaves the cursor strictly
in bounds, so the cell `grid[row][column]` accessed by `write_byte` is
always within the grid. -/
theorem writer_invariant (g : Grid) (ops : List Op) :
    (run g ops).column_position ≤ BUFFER_WIDTH ∧
    (run g ops).row_position < BUFFER_HEIGHT ∧
    (wrapState (run g ops)).column_position < BUFFER_WIDTH ∧
    (wrapState (run g ops)).row_position < BUFFER_HEIGHT := by
  obtain ⟨h1, h2⟩ := inv_foldl ops (initWriter g) (by simp [initWriter])
    (by simp [initWriter, BUFFER_HEIGHT])
  refine ⟨h1, h2, ?_, ?_⟩
  · unfold wrapState
    split
    · rw [new_line_column]
      simp [BUFFER_WIDTH]
    · omega
  · unfold wrapState
    split
    · exact new_line_row_lt _
    · exact h2

end VgaBuffer
